import Mathlib

/-!
Verification of the fin_line market-tick pipeline (Go sources) against its
natural-language specification.

The Go sources are shallowly embedded:
* `float64` values carrying prices, sums and variances are modelled exactly
  over `ℚ` (the claims under study are algebraic/structural, not about
  floating-point rounding); `math.Sqrt` is modelled at the theorem level
  via `Real.sqrt`.
* `int64` / `int32` fields are modelled over `ℤ` (no arithmetic here comes
  near the 64-bit boundary) and slice indices over `ℕ`.
* Effectful code (Redis pipelines, streams, counters) is modelled by
  explicit state passing; fallible code returns `Option`.
-/

/-- A `NormalizedTick`, from `pkg/models` (`tick.go`): canonical in-pipeline
tick with ticker, price, millisecond timestamp and sector. -/
structure NormalizedTick where
  ticker : String
  price : ℚ
  timestamp : ℤ
  sector : String
deriving DecidableEq, Repr

/-! ## Latest-state publisher (`cmd/cachepub/cachepub.go`) -/

/-- State visible to `publishTick`: the `quotes:latest:<ticker>` hashes
(mapping a ticker to its stored `price` and `ts_ms` fields) together with
the ordered list of ticks published on `quotes:pubsub`. -/
structure PubState where
  latest : String → Option (ℚ × ℤ)
  published : List NormalizedTick

/-- The empty store: no `quotes:latest` hash exists yet, nothing published. -/
def PubState.init : PubState := ⟨fun _ => none, []⟩

/-- Redis `HSET key (price, ts_ms)` on the hash table: overwrites the record
stored under `k` unconditionally. -/
def hset (store : String → Option (ℚ × ℤ)) (k : String) (v : ℚ × ℤ) :
    String → Option (ℚ × ℤ) :=
  fun q => if q = k then some v else store q

/-- `publishTick` from `cmd/cachepub/cachepub.go`: the pipelined batch does
(a) `HSET quotes:latest:<ticker> price ts_ms` and (b) publishes the tick on
`quotes:pubsub`.  There is no read of the stored record and no comparison
with the stored `ts_ms`: the hash write is unconditional. -/
def publishTick (st : PubState) (tick : NormalizedTick) : PubState :=
  { latest := hset st.latest tick.ticker (tick.price, tick.timestamp),
    published := st.published ++ [tick] }

/-! ## Rolling window (`cmd/anomaly/anomaly.go`) -/

/-- `rollingWindow` from `cmd/anomaly/anomaly.go`: fixed-size ring buffer
with running sum and sum of squares. -/
structure rollingWindow where
  buf : List ℚ
  sum : ℚ
  sqsum : ℚ
  idx : ℕ
  full : Bool
deriving DecidableEq, Repr

/-- `newWindow(size)`: zeroed buffer of the given capacity. -/
def newWindow (size : ℕ) : rollingWindow :=
  ⟨List.replicate size 0, 0, 0, 0, false⟩

/-- `(*rollingWindow).add`: when full, evict the value about to be
overwritten from `sum`/`sqsum`; write `x` at `idx`; advance `idx`
cyclically; set `full` once `idx` wraps to 0. -/
def rollingWindow.add (w : rollingWindow) (x : ℚ) : rollingWindow :=
  let w1 :=
    if w.full then
      let old := w.buf.getD w.idx 0
      { w with sum := w.sum - old, sqsum := w.sqsum - old * old }
    else w
  let buf := w1.buf.set w1.idx x
  let sum := w1.sum + x
  let sqsum := w1.sqsum + x * x
  let idx := (w1.idx + 1) % buf.length
  { buf := buf, sum := sum, sqsum := sqsum, idx := idx,
    full := if idx = 0 then true else w1.full }

/-- The sample count `n` used by `stats`: `len(buf)` when full, else `idx`. -/
def rollingWindow.statsN (w : rollingWindow) : ℕ :=
  if w.full then w.buf.length else w.idx

/-- `(*rollingWindow).stats`, up to the final square root: returns
`(mean, variance)` where `variance` is clamped at 0.  The Go function
returns `(mean, std)` with `std = math.Sqrt variance`; the square root is
applied at the theorem level via `Real.sqrt` since it is irrational on ℚ. -/
def rollingWindow.stats (w : rollingWindow) : ℚ × ℚ :=
  let n : ℚ := (w.statsN : ℚ)
  if n = 0 then (0, 0)
  else
    let mean := w.sum / n
    let variance := w.sqsum / n - mean * mean
    (mean, if variance < 0 then 0 else variance)

/-! ## Anomaly detector step (`cmd/anomaly/anomaly.go`, `runAnomalyDetector`) -/

/-- An `Anomaly` record as emitted by the detector.  The Go struct stores
the z-score itself (a float); since the z-score involves a square root we
store its square `zsq = ((x - mean) / std)^2` exactly; the emitted z-score
is `Real.sqrt zsq`. -/
structure Anomaly where
  ticker : String
  price : ℚ
  zsq : ℚ
  timestamp : ℤ
deriving DecidableEq, Repr

/-- One iteration of the detector loop body for an incoming tick, acting on
that ticker's window: `w.add(price)`, then `stats`; if `std == 0` skip;
otherwise emit iff `z ≥ threshold` where `z = |(price - mean) / std|`.
`std = Real.sqrt variance`, so `std = 0` iff `variance = 0` (the variance is
clamped at 0), and for `variance > 0` the Go test `z >= threshold` holds iff
`threshold ≤ 0` or `threshold^2 * variance ≤ (price - mean)^2`; the
equivalence with the `Real.sqrt` form is proved in the theorem for C3. -/
def detectorStep (w : rollingWindow) (ticker : String) (price : ℚ)
    (tsMs : ℤ) (threshold : ℚ) : rollingWindow × Option Anomaly :=
  let w' := w.add price
  let ms := w'.stats
  if ms.2 = 0 then (w', none)
  else if threshold ≤ 0 ∨ threshold ^ 2 * ms.2 ≤ (price - ms.1) ^ 2 then
    (w', some ⟨ticker, price, (price - ms.1) ^ 2 / ms.2, tsMs⟩)
  else (w', none)

/-! ## Redis client circuit breaker (`pkg/redisclient`) -/

/-- The circuit-breaker fields of `redisclient.Client`: the consecutive
failure counter (`int64`) and the state word (`int32`: 0 = closed,
1 = open, 2 = half-open).  The `lastFailure` wall-clock field is not
modelled: no code path reads it. -/
structure CBState where
  failureCount : ℤ
  state : ℤ
deriving DecidableEq, Repr

/-- The zero-valued client produced by `redisclient.New`. -/
def CBState.init : CBState := ⟨0, 0⟩

/-- `atomic.CompareAndSwapInt32`: replace `cur` by `new` only when it
equals `old`. -/
def cas (cur old new : ℤ) : ℤ := if cur = old then new else cur

/-- `(*Client).checkCircuitBreaker`: on error, increment the failure count
and, once it reaches 5, CAS the state from closed (0) to open (1); on
success, reset the count to 0 and CAS the state from open (1) to
half-open (2). -/
def checkCircuitBreaker (s : CBState) (failed : Bool) : CBState :=
  if failed then
    let fc := s.failureCount + 1
    { failureCount := fc,
      state := if 5 ≤ fc then cas s.state 0 1 else s.state }
  else
    { failureCount := 0, state := cas s.state 1 2 }

/-- Outcome of one `AddToStream` call: success, the immediate
`ErrCircuitBreakerOpen` short-circuit, or a store error surfaced after the
retry budget is exhausted. -/
inductive AddResult
  | ok
  | circuitOpen
  | storeError
deriving DecidableEq, Repr

/-- The attempt loop run by `backoff.Retry` inside `AddToStream`: the store's
response to the i-th attempt (counting from `start`) is `res i` (`true` =
`XADD` succeeded).  Each attempt feeds its outcome to `checkCircuitBreaker`;
the loop stops at the first success or when the attempt budget `fuel` is
spent.  Returns the breaker state, whether the call succeeded, and how many
attempts actually contacted the store. -/
def runAttempts (s : CBState) (res : ℕ → Bool) (start : ℕ) :
    ℕ → CBState × Bool × ℕ
  | 0 => (s, false, 0)
  | fuel + 1 =>
    let ok := res start
    let s' := checkCircuitBreaker s (!ok)
    if ok then (s', true, 1)
    else if fuel = 0 then (s', false, 1)
    else
      let r := runAttempts s' res (start + 1) fuel
      (r.1, r.2.1, r.2.2 + 1)

/-- `(*Client).AddToStream`: if the breaker state is open (1), fail
immediately with `ErrCircuitBreakerOpen` without contacting the store.
Otherwise run the attempt loop under
`backoff.Retry(op, backoff.WithMaxRetries(backoff.NewExponentialBackOff(), 3))`,
which executes the operation once and then up to 3 more times
(`cenkalti/backoff/v4` counts `NextBackOff` calls against `maxTries`, so
the operation runs at most `maxTries + 1 = 4` times). -/
def AddToStream (s : CBState) (res : ℕ → Bool) : CBState × AddResult × ℕ :=
  if s.state = 1 then (s, .circuitOpen, 0)
  else
    let r := runAttempts s res 0 4
    (r.1, if r.2.1 then .ok else .storeError, r.2.2)

/-! ## Validation and sanitization (`pkg/validation`, in `logger.go`) -/

/-- A value of Go's `interface{}` as it occurs in the tick maps: either a
string or a JSON/float64 number (modelled exactly over ℚ). -/
inductive GoVal
  | vStr (s : String)
  | vFloat (x : ℚ)
deriving DecidableEq, Repr

/-- Field lookup in a `map[string]interface{}`, modelled as an association
list (first binding wins; the Go maps here have distinct keys). -/
def lookupVal (m : List (String × GoVal)) (k : String) : Option GoVal :=
  match m with
  | [] => none
  | (k', v) :: rest => if k = k' then some v else lookupVal rest k

/-- Character codes treated as white space by Go's `unicode.IsSpace`
(hence trimmed by `strings.TrimSpace`). -/
def isGoSpace (c : Char) : Bool :=
  c.toNat = 9 ∨ c.toNat = 10 ∨ c.toNat = 11 ∨ c.toNat = 12 ∨ c.toNat = 13 ∨
  c.toNat = 32 ∨ c.toNat = 133 ∨ c.toNat = 160 ∨ c.toNat = 5760 ∨
  (8192 ≤ c.toNat ∧ c.toNat ≤ 8202) ∨ c.toNat = 8232 ∨ c.toNat = 8233 ∨
  c.toNat = 8239 ∨ c.toNat = 8287 ∨ c.toNat = 12288

/-- `validation.SanitizeString`: drop control characters below 32 except
tab/newline/carriage-return, then trim surrounding white space. -/
def SanitizeString (s : String) : String :=
  let kept := s.toList.filter fun c =>
    !(c.toNat < 32 && c.toNat ≠ 9 && c.toNat ≠ 10 && c.toNat ≠ 13)
  let trimmed := ((kept.dropWhile isGoSpace).reverse.dropWhile isGoSpace).reverse
  String.mk trimmed

/-- `validation.SanitizePrice`: prices ≤ 0 become 0.01, prices above
1,000,000 become 1,000,000, anything else is returned unchanged. -/
def SanitizePrice (price : ℚ) : ℚ :=
  if price ≤ 0 then 1 / 100
  else if 1000000 < price then 1000000
  else price

/-- `validation.SanitizeTimestamp`: clamp a millisecond timestamp to `now`
when it is in the future or more than 24 hours in the past.  (`time.Now`
is passed in as `now`, in milliseconds; Go compares at nanosecond
precision, the extra sub-millisecond fraction of `now` is immaterial to
the claims and is modelled as 0.) -/
def SanitizeTimestamp (now ms : ℤ) : ℤ :=
  if now < ms then now
  else if ms < now - 86400000 then now
  else ms

/-- Decimal digits of a char list folded into a natural number. -/
def digitsToNat (l : List Char) : ℕ :=
  l.foldl (fun acc c => acc * 10 + (c.toNat - 48)) 0

/-- `strconv.ParseInt(s, 10, 64)`: optional sign, at least one digit,
nothing else, and the value must fit in an `int64`. -/
def parseInt64 (s : String) : Option ℤ :=
  let chars := s.toList
  let signed : Option (Bool × List Char) :=
    match chars with
    | '+' :: rest => some (false, rest)
    | '-' :: rest => some (true, rest)
    | rest => some (false, rest)
  match signed with
  | some (neg, ds) =>
    if ds = [] ∨ ¬ ds.all Char.isDigit then none
    else
      let v : ℤ := (digitsToNat ds : ℤ)
      let v := if neg then -v else v
      if v < -(2 ^ 63) ∨ 2 ^ 63 - 1 < v then none else some v
  | none => none

/-- `strconv.ParseFloat(s, 64)` restricted to plain decimal literals
(optional sign, digits with an optional fraction, optional decimal
exponent), which are the only shapes the pipeline feeds it.  The value is
kept exactly in ℚ rather than rounded to the nearest binary double. -/
def parseFloatQ (s : String) : Option ℚ :=
  let chars := s.toList
  let (neg, rest) : Bool × List Char :=
    match chars with
    | '+' :: r => (false, r)
    | '-' :: r => (true, r)
    | r => (false, r)
  let intPart := rest.takeWhile Char.isDigit
  let rest1 := rest.dropWhile Char.isDigit
  let (fracPart, rest2) : List Char × List Char :=
    match rest1 with
    | '.' :: r => (r.takeWhile Char.isDigit, r.dropWhile Char.isDigit)
    | r => ([], r)
  if intPart = [] ∧ fracPart = [] then none
  else
    let mant : ℚ := (digitsToNat (intPart ++ fracPart) : ℚ) /
      (10 : ℚ) ^ fracPart.length
    let mant := if neg then -mant else mant
    match rest2 with
    | [] => some mant
    | e :: r =>
      if e = 'e' ∨ e = 'E' then
        let (eneg, ds) : Bool × List Char :=
          match r with
          | '+' :: r' => (false, r')
          | '-' :: r' => (true, r')
          | r' => (false, r')
        if ds = [] ∨ ¬ ds.all Char.isDigit then none
        else
          let ex : ℤ := if eneg then -(digitsToNat ds : ℤ) else (digitsToNat ds : ℤ)
          some (mant * (10 : ℚ) ^ ex)
      else none

/-- Days from the civil epoch 1970-01-01 for a proleptic Gregorian date
(Howard Hinnant's `days_from_civil`, with floor division as provided by
`Int./`). -/
def daysFromCivil (y : ℤ) (m d : ℕ) : ℤ :=
  let y' : ℤ := if m ≤ 2 then y - 1 else y
  let era : ℤ := y' / 400
  let yoe : ℤ := y' - era * 400
  let mp : ℤ := ((m : ℤ) + 9) % 12
  let doy : ℤ := (153 * mp + 2) / 5 + (d : ℤ) - 1
  let doe : ℤ := yoe * 365 + yoe / 4 - yoe / 100 + doy
  era * 146097 + doe - 719468

/-- Days in a month of the Gregorian calendar. -/
def daysInMonth (y : ℤ) (m : ℕ) : ℕ :=
  if m = 2 then
    if y % 4 = 0 ∧ (y % 100 ≠ 0 ∨ y % 400 = 0) then 29 else 28
  else if m = 4 ∨ m = 6 ∨ m = 9 ∨ m = 11 then 30
  else 31

/-- Parse a fixed-width decimal field. -/
def fixedNat (l : List Char) : Option ℕ :=
  if l ≠ [] ∧ l.all Char.isDigit then some (digitsToNat l) else none

/-- Parse the trailing fraction-and-offset part of an RFC3339Nano string,
returning nanoseconds of fraction and the zone offset in seconds. -/
def parseFracOffset (l : List Char) : Option (ℕ × ℤ) :=
  let (fracDigits, rest) : List Char × List Char :=
    match l with
    | '.' :: r => (r.takeWhile Char.isDigit, r.dropWhile Char.isDigit)
    | r => ([], r)
  let fracNs : Option ℕ :=
    match l with
    | '.' :: _ =>
      if fracDigits = [] ∨ 9 < fracDigits.length then none
      else some (digitsToNat fracDigits * 10 ^ (9 - fracDigits.length))
    | _ => some 0
  match fracNs with
  | none => none
  | some ns =>
    match rest with
    | ['Z'] => some (ns, 0)
    | sgn :: h1 :: h2 :: ':' :: m1 :: m2 :: [] =>
      if sgn = '+' ∨ sgn = '-' then
        match fixedNat [h1, h2], fixedNat [m1, m2] with
        | some oh, some om =>
          if oh < 24 ∧ om < 60 then
            let secs : ℤ := (oh : ℤ) * 3600 + (om : ℤ) * 60
            some (ns, if sgn = '-' then -secs else secs)
          else none
        | _, _ => none
      else none
    | _ => none

/-- `time.Parse(time.RFC3339Nano, s)`, returning nanoseconds since the Unix
epoch.  Covers the RFC3339 shapes `YYYY-MM-DDTHH:MM:SS[.fraction](Z|±HH:MM)`
that the layout describes, with calendar range checks as performed by
`time.Parse`. -/
def parseRFC3339 (s : String) : Option ℤ :=
  match s.toList with
  | y1 :: y2 :: y3 :: y4 :: '-' :: m1 :: m2 :: '-' :: d1 :: d2 :: 'T' ::
      h1 :: h2 :: ':' :: mi1 :: mi2 :: ':' :: s1 :: s2 :: rest =>
    match fixedNat [y1, y2, y3, y4], fixedNat [m1, m2], fixedNat [d1, d2],
        fixedNat [h1, h2], fixedNat [mi1, mi2], fixedNat [s1, s2] with
    | some y, some mo, some d, some h, some mi, some se =>
      if 1 ≤ mo ∧ mo ≤ 12 ∧ 1 ≤ d ∧ d ≤ daysInMonth (y : ℤ) mo ∧
          h < 24 ∧ mi < 60 ∧ se < 60 then
        match parseFracOffset rest with
        | some (ns, off) =>
          let epochSec : ℤ := daysFromCivil (y : ℤ) mo d * 86400 +
            (h : ℤ) * 3600 + (mi : ℤ) * 60 + (se : ℤ) - off
          some (epochSec * 1000000000 + (ns : ℤ))
        | none => none
      else none
    | _, _, _, _, _, _ => none
  | _ => none

/-! ## RawTick and `RawTickFromMap` (`pkg/models`, `tick.go`) -/

/-- `models.RawTick`: the untrusted observation.  `Timestamp` is a
`time.Time`, modelled as nanoseconds since the Unix epoch. -/
structure RawTick where
  source : String
  symbol : String
  price : ℚ
  timestampNs : ℤ
deriving DecidableEq, Repr

/-- Nanoseconds-since-epoch of Go's zero `time.Time`
(0001-01-01T00:00:00 UTC); the `required` validator on a `time.Time`
field fails exactly on this value. -/
def goZeroTimeNs : ℤ := -62135596800 * 1000000000

/-- The `source` regex `^[a-zA-Z0-9_-]{1,100}$` from `pkg/validation`. -/
def sourceOk (s : String) : Bool :=
  1 ≤ s.toList.length ∧ s.toList.length ≤ 100 ∧
  s.toList.all fun c => c.isAlpha ∨ c.isDigit ∨ c = '_' ∨ c = '-'

/-- The `ticker` regex `^[A-Z0-9]{1,10}$` from `pkg/validation`. -/
def tickerOk (s : String) : Bool :=
  1 ≤ s.toList.length ∧ s.toList.length ≤ 10 ∧
  s.toList.all fun c => ('A' ≤ c ∧ c ≤ 'Z') ∨ c.isDigit

/-- `validation.ValidateStruct` applied to a `RawTick`, i.e. the tag checks
`source: required,source`, `symbol: required,ticker`,
`price: required,price` (`validatePrice`: positive and below 1,000,000) and
`timestamp: required` (not the zero `time.Time`). -/
def rawTickValid (rt : RawTick) : Bool :=
  rt.source ≠ "" ∧ sourceOk rt.source ∧
  rt.symbol ≠ "" ∧ tickerOk rt.symbol ∧
  rt.price ≠ 0 ∧ (0 < rt.price ∧ rt.price < 1000000) ∧
  rt.timestampNs ≠ goZeroTimeNs

/-- Expected field types for `validation.ValidateMap` (only the `string`
and `float64` schema entries are exercised by `RawTickFromMap`). -/
inductive FieldType
  | tString
  | tFloat
deriving DecidableEq, Repr

/-- `validation.validateFieldType`: a `string` field must be a Go string; a
`float64` field may be a number (with a range check when the field is
`price`) or a string that parses as a float. -/
def validateFieldType (field : String) (v : GoVal) (t : FieldType) : Bool :=
  match t with
  | .tString => match v with
    | .vStr _ => true
    | _ => false
  | .tFloat => match v with
    | .vFloat x =>
      if field = "price" then decide (0 < x ∧ x < 1000000) else true
    | .vStr s => (parseFloatQ s).isSome

/-- `validation.ValidateMap`: every schema field must be present and pass
`validateFieldType`. -/
def ValidateMap (m : List (String × GoVal))
    (schema : List (String × FieldType)) : Bool :=
  schema.all fun ft =>
    match lookupVal m ft.1 with
    | none => false
    | some v => validateFieldType ft.1 v ft.2

/-- The schema `RawTickFromMap` validates against: `source`, `symbol`
strings, `price` a float64, `timestamp` a string. -/
def rawTickSchema : List (String × FieldType) :=
  [("source", .tString), ("symbol", .tString),
   ("price", .tFloat), ("timestamp", .tString)]

/-- The `source` extraction step of `RawTickFromMap`. -/
def parseSourceField (m : List (String × GoVal)) : Option String :=
  match lookupVal m "source" with
  | some (.vStr s) => some (SanitizeString s)
  | _ => none

/-- The `symbol` extraction step of `RawTickFromMap`. -/
def parseSymbolField (m : List (String × GoVal)) : Option String :=
  match lookupVal m "symbol" with
  | some (.vStr s) => some (SanitizeString s)
  | _ => none

/-- The `price` extraction step of `RawTickFromMap`: a float64 or a string
that parses as one, passed through `SanitizePrice`. -/
def parsePriceField (m : List (String × GoVal)) : Option ℚ :=
  match lookupVal m "price" with
  | some (.vFloat v) => some (SanitizePrice v)
  | some (.vStr s) => (parseFloatQ s).map SanitizePrice
  | none => none

/-- Truncation toward zero of a rational, as Go's `int64(v)` conversion. -/
def ratTrunc (q : ℚ) : ℤ := Int.tdiv q.num (q.den : ℤ)

/-- The `timestamp` extraction step of `RawTickFromMap`: an RFC3339Nano
string is taken as parsed (no sanitization); otherwise a string of
milliseconds is parsed with `ParseInt` and clamped by `SanitizeTimestamp`;
a float64 of milliseconds would be truncated and clamped the same way
(this last branch of the Go switch exists but is unreachable, because
`rawTickSchema` requires `timestamp` to be a string). -/
def parseTimestampField (now : ℤ) (m : List (String × GoVal)) : Option ℤ :=
  match lookupVal m "timestamp" with
  | some (.vStr s) =>
    match parseRFC3339 s with
    | some ns => some ns
    | none =>
      match parseInt64 s with
      | some ms => some (SanitizeTimestamp now ms * 1000000)
      | none => none
  | some (.vFloat v) => some (SanitizeTimestamp now (ratTrunc v) * 1000000)
  | none => none

/-- `models.RawTickFromMap`: validate the raw map against the schema,
extract and sanitize the four fields (any malformed field aborts with an
error, collapsed here to `none`), then run the struct validators; `now` is
the current wall-clock time in milliseconds used by `SanitizeTimestamp`. -/
def RawTickFromMap (now : ℤ) (m : List (String × GoVal)) : Option RawTick :=
  if ValidateMap m rawTickSchema then
    match parseSourceField m, parseSymbolField m, parsePriceField m,
        parseTimestampField now m with
    | some src, some sym, some p, some ts =>
      let rt : RawTick := ⟨src, sym, p, ts⟩
      if rawTickValid rt then some rt else none
    | _, _, _, _ => none
  else none

/-! ## Normalizer (`cmd/normalize/worker.go`) -/

/-- String-to-string map lookup (`symbolMap` / `sectorMap` are Go maps;
a missing `sectorMap` key yields the zero value `""`). -/
def lookupStr (m : List (String × String)) (k : String) : Option String :=
  match m with
  | [] => none
  | (k', v) :: rest => if k = k' then some v else lookupStr rest k

/-- `time.Time.UnixMilli` on our nanosecond representation: floor division
by 10^6 (Go computes `unixSec()*1e3 + nsec()/1e6` with `0 ≤ nsec() < 1e9`,
which is exactly the floor). -/
def unixMilli (ns : ℤ) : ℤ := ns / 1000000

/-- `normalizeOne` from `cmd/normalize/worker.go`, with the Redis write
assumed to succeed: parse the message into a `RawTick` (failure counts one
`normalize_errors` increment and appends nothing), map `symbol → ticker`
(an unknown symbol likewise counts one error and appends nothing), default
the sector to "unknown", and build the `NormalizedTick` to append to
`normalized:events`.  Returns the appended tick (if any) and the number of
`normalize_errors` increments. -/
def normalizeOne (symbolMap sectorMap : List (String × String)) (now : ℤ)
    (values : List (String × GoVal)) : Option NormalizedTick × ℕ :=
  match RawTickFromMap now values with
  | none => (none, 1)
  | some raw =>
    match lookupStr symbolMap raw.symbol with
    | none => (none, 1)
    | some ticker =>
      let sector := ((lookupStr sectorMap ticker).getD "")
      let sector := if sector = "" then "unknown" else sector
      (some ⟨ticker, raw.price, unixMilli raw.timestampNs, sector⟩, 0)

/-- One message of the read loop of `startNormalization`: the cursor
(`lastID`) advances to the message's id before the work is scheduled, so it
advances regardless of what `normalizeOne` does with the message. -/
def processMessage (symbolMap sectorMap : List (String × String)) (now : ℤ)
    (cursor msgId : String) (values : List (String × GoVal)) :
    String × Option NormalizedTick × ℕ :=
  let _ := cursor
  (msgId, normalizeOne symbolMap sectorMap now values)

/-! ## Helper lemmas -/

/-- The breaker state after `n` consecutive failed attempts are fed to
`checkCircuitBreaker`. -/
def afterFails (s : CBState) : ℕ → CBState
  | 0 => s
  | n + 1 => afterFails (checkCircuitBreaker s true) n

theorem runAttempts_le (res : ℕ → Bool) :
    ∀ (fuel : ℕ) (s : CBState) (start : ℕ),
      (runAttempts s res start fuel).2.2 ≤ fuel := by
  intro fuel
  induction fuel with
  | zero => intro s start; simp [runAttempts]
  | succ n ih =>
    intro s start
    by_cases h : res start
    · simp [runAttempts, h]
    · by_cases hn : n = 0
      · subst hn; simp [runAttempts, h]
      · simp only [runAttempts, h, if_neg hn, Bool.false_eq_true, if_false]
        exact Nat.succ_le_succ (ih _ _)

theorem runAttempts_fail (res : ℕ → Bool) :
    ∀ (fuel : ℕ) (s : CBState) (start : ℕ),
      (runAttempts s res start fuel).2.1 = false →
      (runAttempts s res start fuel).1 = afterFails s fuel ∧
        (runAttempts s res start fuel).2.2 = fuel := by
  intro fuel
  induction fuel with
  | zero => intro s start _; exact ⟨rfl, rfl⟩
  | succ n ih =>
    intro s start hfail
    by_cases h : res start
    · simp [runAttempts, h] at hfail
    · by_cases hn : n = 0
      · subst hn; simp [runAttempts, h, afterFails]
      · simp only [runAttempts, h, if_neg hn, Bool.false_eq_true, if_false] at hfail ⊢
        have := ih (checkCircuitBreaker s (!false)) (start + 1) hfail
        simpa [afterFails] using this

theorem AddToStream_open (s : CBState) (res : ℕ → Bool) (h : s.state = 1) :
    AddToStream s res = (s, .circuitOpen, 0) := by
  simp [AddToStream, h]

theorem AddToStream_fail_state (s : CBState) (res : ℕ → Bool)
    (hs : s.state ≠ 1) (hfail : (AddToStream s res).2.1 ≠ .ok) :
    (AddToStream s res).1 = afterFails s 4 ∧
      (AddToStream s res).2.1 = .storeError ∧ (AddToStream s res).2.2 = 4 := by
  simp only [AddToStream, if_neg hs] at hfail ⊢
  rcases hflag : (runAttempts s res 0 4).2.1 with _ | _
  · have h4 := runAttempts_fail res 4 s 0 hflag
    simp [hflag, h4.1, h4.2]
  · simp [hflag] at hfail

/-! ## C1: monotonicity of the latest-quote state -/

/-- C1, counterexample.  The claim states that a `NormalizedTick` whose
`ts_ms` is older than the value stored in `quotes:latest:<ticker>` leaves
the stored record unchanged.  Publishing a tick with `ts_ms = 100` and then
one with `ts_ms = 50` for the same ticker overwrites the stored record and
the stored `ts_ms` decreases from 100 to 50: `publishTick` has no
monotonicity guard. -/
theorem publishTick_no_monotonicity_guard :
    (publishTick PubState.init ⟨"A", 1, 100, "s"⟩).latest "A" = some (1, 100) ∧
    (publishTick (publishTick PubState.init ⟨"A", 1, 100, "s"⟩)
        ⟨"A", 2, 50, "s"⟩).latest "A" = some (2, 50) ∧
    (50 : ℤ) < 100 := by
  refine ⟨?_, ?_, by norm_num⟩ <;> simp [publishTick, hset, PubState.init]

/-- C1, amended: `publishTick` is last-writer-wins.  For every store state
and incoming tick it unconditionally overwrites the
`quotes:latest:<ticker>` record with the incoming tick's price and `ts_ms`
(so an older-than-stored update replaces the stored record rather than
being discarded, and the stored `ts_ms` is not monotonic), and appends the
tick to `quotes:pubsub`. -/
theorem publishTick_last_writer_wins (st : PubState) (tick : NormalizedTick) :
    (publishTick st tick).latest tick.ticker = some (tick.price, tick.timestamp) ∧
    (publishTick st tick).published = st.published ++ [tick] := by
  exact ⟨by simp [publishTick, hset], rfl⟩

/-! ## C4: circuit breaker opens after consecutive failed appends -/

/-- C4: starting from a fresh client, after any 5 consecutive failed
`AddToStream` calls the breaker state is open (1), and the 6th call
returns `ErrCircuitBreakerOpen` having made 0 attempts against the store. -/
theorem circuitBreaker_open_after_five_failures
    (r1 r2 r3 r4 r5 r6 : ℕ → Bool)
    (s1 s2 s3 s4 s5 : CBState) (e1 e2 e3 e4 e5 : AddResult)
    (n1 n2 n3 n4 n5 : ℕ)
    (h1 : AddToStream CBState.init r1 = (s1, e1, n1)) (he1 : e1 ≠ .ok)
    (h2 : AddToStream s1 r2 = (s2, e2, n2)) (he2 : e2 ≠ .ok)
    (h3 : AddToStream s2 r3 = (s3, e3, n3)) (he3 : e3 ≠ .ok)
    (h4 : AddToStream s3 r4 = (s4, e4, n4)) (he4 : e4 ≠ .ok)
    (h5 : AddToStream s4 r5 = (s5, e5, n5)) (he5 : e5 ≠ .ok) :
    s5.state = 1 ∧ AddToStream s5 r6 = (s5, .circuitOpen, 0) := by
  have hs0 : (CBState.init).state ≠ 1 := by decide
  have hc1 := AddToStream_fail_state CBState.init r1 hs0 (by rw [h1]; exact he1)
  rw [h1] at hc1
  have hs1 : s1 = ⟨4, 0⟩ := hc1.1.trans (by decide)
  have hs1' : s1.state ≠ 1 := by rw [hs1]; decide
  have hc2 := AddToStream_fail_state s1 r2 hs1' (by rw [h2]; exact he2)
  rw [h2] at hc2
  have hs2 : s2 = ⟨8, 1⟩ := hc2.1.trans (by rw [hs1]; decide)
  have hs2o : s2.state = 1 := by rw [hs2]
  have ho3 := AddToStream_open s2 r3 hs2o
  rw [ho3] at h3
  have hs3 : s3 = s2 := by cases h3; rfl
  have ho4 := AddToStream_open s3 r4 (by rw [hs3]; exact hs2o)
  rw [ho4] at h4
  have hs4 : s4 = s3 := by cases h4; rfl
  have ho5 := AddToStream_open s4 r5 (by rw [hs4, hs3]; exact hs2o)
  rw [ho5] at h5
  have hs5 : s5 = s4 := by cases h5; rfl
  have hs5o : s5.state = 1 := by rw [hs5, hs4, hs3]; exact hs2o
  exact ⟨hs5o, AddToStream_open s5 r6 hs5o⟩

/-- C4, witness: with a store that always fails, the five concrete calls
fail and the conclusion holds at that input. -/
theorem circuitBreaker_open_after_five_failures_witness :
    (⟨8, 1⟩ : CBState).state = 1 ∧
      AddToStream ⟨8, 1⟩ (fun _ => false) = (⟨8, 1⟩, .circuitOpen, 0) := by
  have h := circuitBreaker_open_after_five_failures
    (fun _ => false) (fun _ => false) (fun _ => false) (fun _ => false)
    (fun _ => false) (fun _ => false)
    ⟨4, 0⟩ ⟨8, 1⟩ ⟨8, 1⟩ ⟨8, 1⟩ ⟨8, 1⟩
    .storeError .storeError .circuitOpen .circuitOpen .circuitOpen
    4 4 0 0 0
    (by decide) (by decide) (by decide) (by decide) (by decide)
    (by decide) (by decide) (by decide) (by decide) (by decide)
  exact h

/-! ## C5: circuit breaker state machine around half-open -/

/-- C5, counterexample.  The claim states that in the half-open state (2)
any failure returns the breaker to the open state (1).  Feeding a failure
to `checkCircuitBreaker` in state 2 (here with 4 accumulated failures, so
the 5-failure threshold is crossed) leaves the state at 2: the CAS only
moves closed (0) to open (1), never half-open to open. -/
theorem checkCircuitBreaker_halfOpen_failure_not_open :
    (⟨4, 2⟩ : CBState).state = 2 ∧
      (checkCircuitBreaker ⟨4, 2⟩ true).state = 2 ∧
      (checkCircuitBreaker ⟨4, 2⟩ true).state ≠ 1 := by
  decide

/-- C5, amended.  Of the claimed transitions, only these hold: a success in
the open state (1) moves the breaker to half-open (2), and any success
resets the failure counter to 0.  A failure in the half-open state (2) does
NOT return the breaker to open: the state stays 2 whatever the counter,
because the failure path only CASes closed (0) to open (1). -/
theorem checkCircuitBreaker_transitions (s : CBState) :
    (checkCircuitBreaker s false).failureCount = 0 ∧
    (s.state = 1 → (checkCircuitBreaker s false).state = 2) ∧
    (s.state = 2 → (checkCircuitBreaker s true).state = 2) ∧
    (s.state = 2 → (checkCircuitBreaker s true).state ≠ 1) := by
  refine ⟨rfl, ?_, ?_, ?_⟩
  · intro h; simp [checkCircuitBreaker, cas, h]
  · intro h
    simp only [checkCircuitBreaker, h, cas]
    by_cases h5 : (5 : ℤ) ≤ s.failureCount + 1 <;> simp [h5]
  · intro h
    simp only [checkCircuitBreaker, h, cas]
    by_cases h5 : (5 : ℤ) ≤ s.failureCount + 1 <;> simp [h5]

/-- C5, witness for the amended theorem at a concrete breaker state. -/
theorem checkCircuitBreaker_transitions_witness :
    (checkCircuitBreaker ⟨7, 1⟩ false).failureCount = 0 ∧
      (checkCircuitBreaker ⟨7, 1⟩ false).state = 2 := by
  have h := checkCircuitBreaker_transitions ⟨7, 1⟩
  exact ⟨h.1, h.2.1 rfl⟩

/-! ## C6: retry budget of one append -/

/-- C6, counterexample.  The claim states a single append performs at most
3 attempts against the store.  With a store that fails every attempt and a
fresh (closed) breaker, `AddToStream` contacts the store 4 times:
`backoff.WithMaxRetries(…, 3)` allows 3 retries after the initial attempt. -/
theorem addToStream_four_attempts :
    (AddToStream CBState.init (fun _ => false)).2.2 = 4 ∧
      ¬ (AddToStream CBState.init (fun _ => false)).2.2 ≤ 3 := by
  decide

/-- C6, amended.  A single `AddToStream` call performs at most 4 attempts
against the store (one initial call plus up to 3 exponential-backoff
retries); and when the breaker is not open and every attempt fails, the
budget is fully used (exactly 4 attempts) and the error is surfaced to the
caller as `storeError` for that operation. -/
theorem addToStream_retry_budget (s : CBState) (res : ℕ → Bool) :
    (AddToStream s res).2.2 ≤ 4 ∧
    (s.state ≠ 1 → (AddToStream s res).2.1 ≠ .ok →
      (AddToStream s res).2.1 = .storeError ∧ (AddToStream s res).2.2 = 4) := by
  constructor
  · by_cases h : s.state = 1
    · simp [AddToStream, h]
    · simp only [AddToStream, if_neg h]
      exact runAttempts_le res 4 s 0
  · intro hs hfail
    have h := AddToStream_fail_state s res hs hfail
    exact ⟨h.2.1, h.2.2⟩

/-- C6, witness for the amended theorem: exhaustion at a concrete input. -/
theorem addToStream_retry_budget_witness :
    (AddToStream CBState.init (fun _ => false)).2.1 = .storeError ∧
      (AddToStream CBState.init (fun _ => false)).2.2 = 4 := by
  exact (addToStream_retry_budget CBState.init (fun _ => false)).2
    (by decide) (by decide)

/-! ## C9: unknown symbol in the normalizer -/

/-- C9: for a `raw:events` message that parses as a `RawTick` but whose
symbol is absent from the symbol table, the normalizer appends nothing to
`normalized:events`, increments `normalize_errors` exactly once, and the
cursor still advances to the message's id. -/
theorem normalize_unknown_symbol
    (symbolMap sectorMap : List (String × String)) (now : ℤ)
    (cursor msgId : String) (values : List (String × GoVal)) (raw : RawTick)
    (hparse : RawTickFromMap now values = some raw)
    (hsym : lookupStr symbolMap raw.symbol = none) :
    processMessage symbolMap sectorMap now cursor msgId values =
      (msgId, none, 1) := by
  simp [processMessage, normalizeOne, hparse, hsym]

/-- C9, witness: the spec's own scenario, a tick with symbol "ZZZ" against
a symbol table containing only "BTCUSD". -/
theorem normalize_unknown_symbol_witness :
    processMessage [("BTCUSD", "BTCUSD")] [("BTCUSD", "crypto")]
        1752148800000 "5-1" "7-0"
        [("source", .vStr "A"), ("symbol", .vStr "ZZZ"),
         ("price", .vFloat 1), ("timestamp", .vStr "1752148800000")] =
      ("7-0", none, 1) := by
  exact normalize_unknown_symbol _ _ _ _ _ _
    ⟨"A", "ZZZ", 1, 1752148800000000000⟩ (by decide) (by decide)

/-! ## C2: rolling-window correctness -/

theorem succ_mod_eq (k W : ℕ) (hW : 0 < W) :
    (k + 1) % W = if k % W + 1 = W then 0 else k % W + 1 := by
  have hr : k % W < W := Nat.mod_lt _ hW
  have h1 : (k + 1) % W = (k % W + 1) % W := by
    conv_lhs => rw [← Nat.mod_add_div k W]
    rw [Nat.add_right_comm, Nat.add_mul_mod_self_left]
  rw [h1]
  by_cases h : k % W + 1 = W
  · simp [h, Nat.mod_self]
  · have hlt : k % W + 1 < W := by omega
    rw [if_neg h, Nat.mod_eq_of_lt hlt]

theorem list_set_append_len {α : Type} (l₁ l₂ : List α) (y x : α) :
    (l₁ ++ y :: l₂).set l₁.length x = l₁ ++ x :: l₂ := by
  induction l₁ with
  | nil => rfl
  | cons a t ih => simp [List.set, ih]

theorem list_getD_append_len (l₁ l₂ : List ℚ) (d : ℚ) :
    (l₁ ++ l₂).getD l₁.length d = l₂.getD 0 d := by
  rw [List.getD_append_right _ _ _ _ (le_refl _)]
  simp

/-- The invariant tying a `rollingWindow` to the full history `xs` of values
added to it (capacity `W`): the buffer length is `W`; `idx` counts updates
mod `W`; `full` says whether at least `W` updates happened; `sum` / `sqsum`
are the sum and sum of squares of the last `min |xs| W` values; and the
buffer is that window of values, rotated so that the `idx` most recent ones
sit at the front (before filling, the prefix of the buffer is `xs` itself,
padded with the initial zeros). -/
def WindowInv (W : ℕ) (xs : List ℚ) (w : rollingWindow) : Prop :=
  w.buf.length = W ∧
  w.idx = xs.length % W ∧
  (w.full = true ↔ W ≤ xs.length) ∧
  w.sum = (xs.drop (xs.length - W)).sum ∧
  w.sqsum = ((xs.drop (xs.length - W)).map fun t => t * t).sum ∧
  (if W ≤ xs.length
   then ∃ a b : List ℚ, xs.drop (xs.length - W) = a ++ b ∧
      b.length = w.idx ∧ w.buf = b ++ a
   else w.buf = xs ++ List.replicate (W - xs.length) 0)

theorem WindowInv_init (W : ℕ) (hW : 0 < W) : WindowInv W [] (newWindow W) := by
  refine ⟨by simp [newWindow], by simp [newWindow], ?_, by simp [newWindow],
    by simp [newWindow], ?_⟩
  · simp only [newWindow, List.length_nil]
    constructor
    · intro h; cases h
    · intro h; omega
  · simp only [List.length_nil]
    rw [if_neg (by omega)]
    simp [newWindow]

theorem WindowInv_step (W : ℕ) (hW : 0 < W) (xs : List ℚ) (x : ℚ)
    (w : rollingWindow) (h : WindowInv W xs w) :
    WindowInv W (xs ++ [x]) (w.add x) := by
  obtain ⟨hlen, hidx, hfull, hsum, hsq, hbuf⟩ := h
  have hk1 : (xs ++ [x]).length = xs.length + 1 := by simp
  by_cases hk : W ≤ xs.length
  · -- the window is already full
    have hfullT : w.full = true := hfull.mpr hk
    rw [if_pos hk] at hbuf
    obtain ⟨a, b, hab, hbl, hbufe⟩ := hbuf
    have hdlen : (xs.drop (xs.length - W)).length = W := by
      simp only [List.length_drop]; omega
    have habl : a.length + b.length = W := by
      have := congrArg List.length hab
      simp only [List.length_append] at this
      omega
    have hr : w.idx < W := by rw [hidx]; exact Nat.mod_lt _ hW
    have hal : 0 < a.length := by omega
    obtain ⟨old, a', rfl⟩ : ∃ o t, a = o :: t := by
      cases a with
      | nil => simp at hal
      | cons o t => exact ⟨o, t, rfl⟩
    have habl' : a'.length + 1 + b.length = W := by
      simp only [List.length_cons] at habl
      omega
    have hold : (b ++ old :: a').getD w.idx 0 = old := by
      rw [← hbl, list_getD_append_len]
      rfl
    have hdrop' : (xs ++ [x]).drop ((xs ++ [x]).length - W) = (a' ++ b) ++ [x] := by
      rw [hk1]
      have h1 : xs.length + 1 - W = (xs.length - W) + 1 := by omega
      rw [h1, List.drop_append_of_le_length (by omega)]
      have h2 : xs.drop (xs.length - W + 1) = a' ++ b := by
        rw [← List.drop_drop, hab]
        rfl
      rw [h2]
    have haddeq : w.add x =
        ⟨(b ++ old :: a').set w.idx x, w.sum - old + x,
          w.sqsum - old * old + x * x, (w.idx + 1) % W,
          if (w.idx + 1) % W = 0 then true else true⟩ := by
      simp only [rollingWindow.add, hfullT, if_pos, hbufe, hold]
      have hl : ((b ++ old :: a').set w.idx x).length = W := by
        rw [List.length_set, ← hbufe, hlen]
      rw [hl]
    have hseteq : (b ++ old :: a').set w.idx x = b ++ x :: a' := by
      rw [← hbl, list_set_append_len]
    rw [haddeq, hseteq]
    have hsum' : (((a' ++ b) ++ [x]).sum : ℚ) = w.sum - old + x := by
      rw [hsum, hab]
      simp
      ring
    have hsq' : ((((a' ++ b) ++ [x]).map fun t => t * t).sum : ℚ) =
        w.sqsum - old * old + x * x := by
      rw [hsq, hab]
      simp
      ring
    refine ⟨?_, ?_, ?_, ?_, ?_, ?_⟩
    · simp only [List.length_append, List.length_cons]
      omega
    · simp only [hk1]
      rw [succ_mod_eq xs.length W hW, ← hidx]
      by_cases hw : w.idx + 1 = W
      · rw [if_pos hw, hw, Nat.mod_self]
      · rw [if_neg hw, Nat.mod_eq_of_lt (by omega)]
    · have ht : (if (w.idx + 1) % W = 0 then true else true) = true := by
        split <;> rfl
      rw [ht, hk1]
      constructor
      · intro _; omega
      · intro _; rfl
    · rw [hdrop', hsum']
    · rw [hdrop', hsq']
    · rw [if_pos (by rw [hk1]; omega)]
      rw [hdrop']
      by_cases hw : w.idx + 1 = W
      · -- the index wraps to 0: the whole buffer is the window in order
        have ha' : a' = [] := by
          have : a'.length = 0 := by omega
          exact List.eq_nil_of_length_eq_zero this
        refine ⟨b ++ [x], [], ?_, ?_, ?_⟩
        · simp [ha']
        · simp [hw, Nat.mod_self]
        · simp [ha']
      · refine ⟨a', b ++ [x], by simp, ?_, by simp⟩
        rw [Nat.mod_eq_of_lt (by omega)]
        simp [hbl]
  · -- the window is not yet full
    have hfullF : w.full = false := by
      cases hfe : w.full with
      | true => exact absurd (hfull.mp hfe) hk
      | false => rfl
    rw [if_neg hk] at hbuf
    have hkW : xs.length < W := by omega
    have hidx' : w.idx = xs.length := by
      rw [hidx, Nat.mod_eq_of_lt hkW]
    have hrep : List.replicate (W - xs.length) (0 : ℚ) =
        0 :: List.replicate (W - xs.length - 1) 0 := by
      cases hwe : W - xs.length with
      | zero => omega
      | succ n => simp [List.replicate]
    have hseteq : w.buf.set w.idx x =
        (xs ++ [x]) ++ List.replicate (W - (xs.length + 1)) 0 := by
      rw [hbuf, hrep, hidx', list_set_append_len]
      have h1 : W - (xs.length + 1) = W - xs.length - 1 := by omega
      rw [h1]
      simp
    have haddeq : w.add x =
        ⟨(xs ++ [x]) ++ List.replicate (W - (xs.length + 1)) 0, w.sum + x,
          w.sqsum + x * x, (w.idx + 1) % W,
          if (w.idx + 1) % W = 0 then true else w.full⟩ := by
      simp only [rollingWindow.add, hfullF, Bool.false_eq_true, if_false, hseteq]
      have hl : ((xs ++ [x]) ++ List.replicate (W - (xs.length + 1)) 0).length = W := by
        simp only [List.length_append, List.length_replicate, List.length_singleton]
        omega
      rw [hl]
    rw [haddeq]
    have hdropNil : (xs ++ [x]).drop ((xs ++ [x]).length - W) = xs ++ [x] := by
      rw [hk1]
      have h0 : xs.length + 1 - W = 0 := by omega
      rw [h0, List.drop_zero]
    have hdropNil0 : xs.drop (xs.length - W) = xs := by
      have h0 : xs.length - W = 0 := by omega
      rw [h0, List.drop_zero]
    refine ⟨?_, ?_, ?_, ?_, ?_, ?_⟩
    · simp only [List.length_append, List.length_replicate, List.length_singleton]
      omega
    · simp only [hk1]
      rw [hidx']
    · rw [hk1, hidx']
      by_cases hw : xs.length + 1 = W
      · rw [hw, Nat.mod_self, if_pos rfl]
        constructor
        · intro _; omega
        · intro _; rfl
      · have hlt : xs.length + 1 < W := by omega
        rw [Nat.mod_eq_of_lt hlt, if_neg (by omega), hfullF]
        constructor
        · intro h2; simp at h2
        · intro h2; exact absurd h2 (by omega)
    · rw [hdropNil, hsum, hdropNil0]
      simp
    · rw [hdropNil, hsq, hdropNil0]
      simp
    · by_cases hw : W ≤ xs.length + 1
      · rw [hk1, if_pos hw]
        have hweq : xs.length + 1 = W := by omega
        refine ⟨xs ++ [x], [], ?_, ?_, ?_⟩
        · have h0 : xs.length + 1 - W = 0 := by omega
          rw [h0, List.drop_zero, List.append_nil]
        · simp [hidx', hweq, Nat.mod_self]
        · have h0 : W - (xs.length + 1) = 0 := by omega
          rw [h0]
          simp
      · rw [hk1, if_neg hw]

theorem WindowInv_foldl (W : ℕ) (hW : 0 < W) (xs : List ℚ) :
    WindowInv W xs (xs.foldl rollingWindow.add (newWindow W)) := by
  induction xs using List.reverseRecOn with
  | nil => exact WindowInv_init W hW
  | append_singleton ys y ih =>
    rw [List.foldl_append]
    exact WindowInv_step W hW ys y _ ih

/-- C2: for every capacity `W > 0` and update sequence `xs` applied via
`add` to a fresh window, `sum` is the sum of the last `min |xs| W` values,
`sqsum` the sum of their squares, and the count `n` used by `stats` is
`min |xs| W`; in particular with `W = 20`: after 19 updates `full = false`
and `n = 19`, after the 20th `full = true` and `n = 20`, and after the 21st
the first value has been evicted from both `sum` and `sqsum` (they range
over `ys.drop 1`). -/
theorem rollingWindow_spec (W : ℕ) (hW : 0 < W) (xs : List ℚ) :
    ((xs.foldl rollingWindow.add (newWindow W)).sum =
        (xs.drop (xs.length - W)).sum ∧
      (xs.foldl rollingWindow.add (newWindow W)).sqsum =
        ((xs.drop (xs.length - W)).map fun t => t * t).sum ∧
      (xs.foldl rollingWindow.add (newWindow W)).statsN = min xs.length W) ∧
    (∀ ys : List ℚ, ys.length = 19 →
      (ys.foldl rollingWindow.add (newWindow 20)).full = false ∧
        (ys.foldl rollingWindow.add (newWindow 20)).statsN = 19) ∧
    (∀ ys : List ℚ, ys.length = 20 →
      (ys.foldl rollingWindow.add (newWindow 20)).full = true ∧
        (ys.foldl rollingWindow.add (newWindow 20)).statsN = 20) ∧
    (∀ ys : List ℚ, ys.length = 21 →
      (ys.foldl rollingWindow.add (newWindow 20)).sum = (ys.drop 1).sum ∧
        (ys.foldl rollingWindow.add (newWindow 20)).sqsum =
          ((ys.drop 1).map fun t => t * t).sum) := by
  refine ⟨?_, ?_, ?_, ?_⟩
  · obtain ⟨hlen, hidx, hfull, hsum, hsq, -⟩ := WindowInv_foldl W hW xs
    refine ⟨hsum, hsq, ?_⟩
    unfold rollingWindow.statsN
    by_cases hk : W ≤ xs.length
    · rw [if_pos (hfull.mpr hk), hlen]
      omega
    · have hf : (xs.foldl rollingWindow.add (newWindow W)).full = false := by
        cases hfe : (xs.foldl rollingWindow.add (newWindow W)).full with
        | true => exact absurd (hfull.mp hfe) hk
        | false => rfl
      rw [if_neg (by simp [hf]), hidx, Nat.mod_eq_of_lt (by omega)]
      omega
  · intro ys hys
    obtain ⟨hlen, hidx, hfull, -, -, -⟩ := WindowInv_foldl 20 (by norm_num) ys
    have hf : (ys.foldl rollingWindow.add (newWindow 20)).full = false := by
      cases hfe : (ys.foldl rollingWindow.add (newWindow 20)).full with
      | true => have := hfull.mp hfe; omega
      | false => rfl
    refine ⟨hf, ?_⟩
    unfold rollingWindow.statsN
    rw [if_neg (by simp [hf]), hidx, hys]
  · intro ys hys
    obtain ⟨hlen, hidx, hfull, -, -, -⟩ := WindowInv_foldl 20 (by norm_num) ys
    have hf : (ys.foldl rollingWindow.add (newWindow 20)).full = true :=
      hfull.mpr (by omega)
    refine ⟨hf, ?_⟩
    unfold rollingWindow.statsN
    rw [if_pos hf, hlen]
  · intro ys hys
    obtain ⟨hlen, hidx, hfull, hsum, hsq, -⟩ := WindowInv_foldl 20 (by norm_num) ys
    rw [hys] at hsum hsq
    exact ⟨hsum, hsq⟩

/-- C2, witness: capacity 2 and updates `[1, 2, 3]` — the window keeps the
last two values, `1` has been evicted, and the 21-update eviction clause
instantiated on a concrete 21-element list. -/
theorem rollingWindow_spec_witness :
    (([1, 2, 3] : List ℚ).foldl rollingWindow.add (newWindow 2)).sum = 5 ∧
    (([1, 2, 3] : List ℚ).foldl rollingWindow.add (newWindow 2)).statsN = 2 ∧
    ((List.replicate 21 (1 : ℚ)).foldl rollingWindow.add (newWindow 20)).sum =
      ((List.replicate 21 (1 : ℚ)).drop 1).sum := by
  have h := rollingWindow_spec 2 (by norm_num) [1, 2, 3]
  have h21 := (rollingWindow_spec 2 (by norm_num) []).2.2.2
    (List.replicate 21 (1 : ℚ)) (by simp)
  refine ⟨?_, ?_, h21.1⟩
  · have h1 := h.1.1
    norm_num at h1
    exact h1
  · have h2 := h.1.2.2
    norm_num at h2
    exact h2

/-! ## C3: the anomaly emit rule -/

theorem stats_var_nonneg (w : rollingWindow) : 0 ≤ w.stats.2 := by
  unfold rollingWindow.stats
  by_cases h : ((w.statsN : ℚ)) = 0
  · simp [h]
  · simp only [h, if_false]
    split
    · exact le_refl 0
    · linarith [not_lt.mp (by assumption : ¬ _)]

/-- C3: for every tick processed, letting `(mean, variance)` be the stats of
the updated window, `std := Real.sqrt variance` and
`z := |(price - mean) / std|` (the quantities the Go loop computes):
the step keeps the updated window; when `std = 0` nothing is emitted; and
when `std ≠ 0` an anomaly is emitted exactly when `z ≥ threshold`, carrying
this ticker, price, timestamp, and exactly that z-score. -/
theorem detector_emit_rule (w : rollingWindow) (ticker : String) (price : ℚ)
    (tsMs : ℤ) (threshold : ℚ) :
    (detectorStep w ticker price tsMs threshold).1 = w.add price ∧
    (Real.sqrt (((w.add price).stats.2 : ℚ) : ℝ) = 0 →
      (detectorStep w ticker price tsMs threshold).2 = none) ∧
    (Real.sqrt (((w.add price).stats.2 : ℚ) : ℝ) ≠ 0 →
      ((detectorStep w ticker price tsMs threshold).2 ≠ none ↔
        ((threshold : ℚ) : ℝ) ≤
          |(((price : ℚ) : ℝ) - (((w.add price).stats.1 : ℚ) : ℝ)) /
            Real.sqrt (((w.add price).stats.2 : ℚ) : ℝ)|) ∧
      ∀ a : Anomaly, (detectorStep w ticker price tsMs threshold).2 = some a →
        a.ticker = ticker ∧ a.price = price ∧ a.timestamp = tsMs ∧
        Real.sqrt ((a.zsq : ℚ) : ℝ) =
          |(((price : ℚ) : ℝ) - (((w.add price).stats.1 : ℚ) : ℝ)) /
            Real.sqrt (((w.add price).stats.2 : ℚ) : ℝ)|) := by
  have hv0 : (0 : ℚ) ≤ (w.add price).stats.2 := stats_var_nonneg (w.add price)
  have hv0R : (0 : ℝ) ≤ (((w.add price).stats.2 : ℚ) : ℝ) := by
    exact_mod_cast hv0
  have hsz : Real.sqrt (((w.add price).stats.2 : ℚ) : ℝ) = 0 ↔
      (w.add price).stats.2 = 0 := by
    rw [Real.sqrt_eq_zero hv0R]
    exact_mod_cast Iff.rfl
  refine ⟨?_, ?_, ?_⟩
  · simp only [detectorStep]
    split_ifs <;> rfl
  · intro h0
    have hveq : (w.add price).stats.2 = 0 := hsz.mp h0
    simp [detectorStep, hveq]
  · intro h0
    have hvne : (w.add price).stats.2 ≠ 0 := fun h => h0 (hsz.mpr h)
    have hvpos : (0 : ℚ) < (w.add price).stats.2 := lt_of_le_of_ne hv0 (Ne.symm hvne)
    have hvposR : (0 : ℝ) < (((w.add price).stats.2 : ℚ) : ℝ) := by exact_mod_cast hvpos
    have hs : (0 : ℝ) < Real.sqrt (((w.add price).stats.2 : ℚ) : ℝ) :=
      Real.sqrt_pos.mpr hvposR
    set v : ℚ := (w.add price).stats.2 with hvdef
    set m : ℚ := (w.add price).stats.1 with hmdef
    set s : ℝ := Real.sqrt ((v : ℚ) : ℝ) with hsdef
    have habs : |(((price : ℚ) : ℝ) - ((m : ℚ) : ℝ)) / s| =
        |((price : ℝ) - (m : ℝ))| / s := by
      rw [abs_div, abs_of_nonneg (le_of_lt hs)]
    have hiff : (threshold ≤ 0 ∨ threshold ^ 2 * v ≤ (price - m) ^ 2) ↔
        ((threshold : ℚ) : ℝ) ≤ |(((price : ℚ) : ℝ) - ((m : ℚ) : ℝ)) / s| := by
      rw [habs]
      by_cases hθ : threshold ≤ 0
      · have hθR : ((threshold : ℚ) : ℝ) ≤ 0 := by exact_mod_cast hθ
        constructor
        · intro _
          exact le_trans hθR (div_nonneg (abs_nonneg _) (le_of_lt hs))
        · intro _
          exact Or.inl hθ
      · have hθpos : (0 : ℚ) < threshold := lt_of_not_le hθ
        have hθposR : (0 : ℝ) < ((threshold : ℚ) : ℝ) := by exact_mod_cast hθpos
        rw [or_iff_right hθ]
        rw [le_div_iff₀ hs]
        rw [show ((threshold : ℚ) : ℝ) * s = ((threshold : ℚ) : ℝ) * s from rfl]
        constructor
        · intro hq
          have hq' : (((threshold ^ 2 * v : ℚ)) : ℝ) ≤ (((price - m) ^ 2 : ℚ) : ℝ) := by
            exact_mod_cast hq
          push_cast at hq'
          nlinarith [Real.sq_sqrt (show (0:ℝ) ≤ ((v : ℚ) : ℝ) from hv0R),
            abs_nonneg ((price : ℝ) - (m : ℝ)), sq_abs ((price : ℝ) - (m : ℝ)),
            mul_pos hθposR hs]
        · intro hr
          have h2 : (((threshold : ℚ) : ℝ) * s) ^ 2 ≤ |(price : ℝ) - (m : ℝ)| ^ 2 := by
            have h1 : (0 : ℝ) ≤ ((threshold : ℚ) : ℝ) * s :=
              le_of_lt (mul_pos hθposR hs)
            exact pow_le_pow_left₀ h1 hr 2
          rw [mul_pow, sq_abs] at h2
          rw [Real.sq_sqrt hv0R] at h2
          have : (((threshold ^ 2 * v : ℚ)) : ℝ) ≤ (((price - m) ^ 2 : ℚ) : ℝ) := by
            push_cast
            linarith
          exact_mod_cast this
    constructor
    · rw [← hiff]
      simp only [detectorStep, ← hvdef, ← hmdef]
      rw [if_neg hvne]
      by_cases hc : threshold ≤ 0 ∨ threshold ^ 2 * v ≤ (price - m) ^ 2
      · simp [hc]
      · simp [hc]
    · intro a ha
      simp only [detectorStep, ← hvdef, ← hmdef] at ha
      rw [if_neg hvne] at ha
      by_cases hc : threshold ≤ 0 ∨ threshold ^ 2 * v ≤ (price - m) ^ 2
      · rw [if_pos hc] at ha
        have haeq : a = ⟨ticker, price, (price - m) ^ 2 / v, tsMs⟩ :=
          (Option.some.injEq _ _ ▸ ha.symm : _)
        subst haeq
        refine ⟨rfl, rfl, rfl, ?_⟩
        have hcast : ((((price - m) ^ 2 / v : ℚ)) : ℝ) =
            ((price : ℝ) - (m : ℝ)) ^ 2 / ((v : ℚ) : ℝ) := by
          push_cast
          ring
        rw [hcast, Real.sqrt_div' (((price : ℝ) - (m : ℝ)) ^ 2) hv0R,
          Real.sqrt_sq_eq_abs, habs]
      · rw [if_neg hc] at ha
        cases ha

/-- C3, witness: a concrete window where the variance is 1 (std 1) and the
incoming price sits one standard deviation from the mean; with threshold 1
the detector emits. -/
theorem detector_emit_rule_witness :
    (detectorStep ((newWindow 2).add 0) "X" 2 5 1).2 ≠ none := by
  have hw : ((newWindow 2).add 0).add 2 = ⟨[0, 2], 2, 4, 0, true⟩ := by
    norm_num [rollingWindow.add, newWindow, List.set, List.replicate]
  have hm : ((((newWindow 2).add 0).add 2).stats.1) = 1 := by
    rw [hw]
    norm_num [rollingWindow.stats, rollingWindow.statsN]
  have hv : ((((newWindow 2).add 0).add 2).stats.2) = 1 := by
    rw [hw]
    norm_num [rollingWindow.stats, rollingWindow.statsN]
  have h0 : Real.sqrt (((((newWindow 2).add 0).add 2).stats.2 : ℚ) : ℝ) ≠ 0 := by
    rw [hv, Rat.cast_one, Real.sqrt_one]
    exact one_ne_zero
  have h := (detector_emit_rule ((newWindow 2).add 0) "X" 2 5 1).2.2 h0
  apply h.1.mpr
  rw [hm, hv, Rat.cast_one, Real.sqrt_one]
  norm_num

/-! ## Inversion of `RawTickFromMap` -/

theorem rawTickFromMap_some (now : ℤ) (m : List (String × GoVal)) (rt : RawTick)
    (h : RawTickFromMap now m = some rt) :
    ValidateMap m rawTickSchema = true ∧
    parseSourceField m = some rt.source ∧
    parseSymbolField m = some rt.symbol ∧
    parsePriceField m = some rt.price ∧
    parseTimestampField now m = some rt.timestampNs ∧
    rawTickValid rt = true := by
  unfold RawTickFromMap at h
  by_cases hv : ValidateMap m rawTickSchema
  · rw [if_pos hv] at h
    rcases hsrc : parseSourceField m with _ | src
    · rw [hsrc] at h; cases h
    rw [hsrc] at h
    rcases hsym : parseSymbolField m with _ | sym
    · rw [hsym] at h; cases h
    rw [hsym] at h
    rcases hp : parsePriceField m with _ | p
    · rw [hp] at h; cases h
    rw [hp] at h
    rcases hts : parseTimestampField now m with _ | ts
    · rw [hts] at h; cases h
    rw [hts] at h
    simp only [] at h
    by_cases hval : rawTickValid ⟨src, sym, p, ts⟩
    · rw [if_pos hval] at h
      have hrt : rt = ⟨src, sym, p, ts⟩ := (Option.some.inj h).symm
      subst hrt
      exact ⟨hv, rfl, rfl, rfl, rfl, hval⟩
    · rw [if_neg hval] at h; cases h
  · rw [if_neg hv] at h; cases h

/-! ## C7: price sanitization policy -/

/-- C7, counterexample.  The claim's "equivalently" clause says every
`RawTick` returned by `RawTickFromMap` has a price within [0.01, 1e6].
An input with price 0.005 (strictly positive, below the clamp floor) is
accepted unchanged: `SanitizePrice` only raises prices that are ≤ 0, so the
accepted price 1/200 lies outside [1/100, 1000000]. -/
theorem rawTick_price_below_clamp_floor_accepted :
    RawTickFromMap 1752148800000
      [("source", .vStr "A"), ("symbol", .vStr "BTCUSD"),
       ("price", .vFloat (mkRat 1 200)), ("timestamp", .vStr "1752148800000")] =
      some ⟨"A", "BTCUSD", mkRat 1 200, 1752148800000000000⟩ ∧
    ¬ ((1 : ℚ) / 100 ≤ mkRat 1 200) := by
  constructor
  · decide
  · rw [Rat.mkRat_eq_div]
    norm_num

/-- C7, amended: every `RawTick` accepted by `RawTickFromMap` has a price
that is strictly positive and strictly below 1,000,000 (so within
(0, 1e6), not [0.01, 1e6]); and `SanitizePrice` clamps exactly this way:
non-positive prices to 0.01, prices above 1,000,000 down to 1,000,000,
everything else unchanged (a price ≥ 1e6 that is clamped to 1e6 is then
rejected by the struct validator, and a float64 price outside (0, 1e6) is
already rejected by the schema check). -/
theorem rawTick_price_policy :
    (∀ (now : ℤ) (m : List (String × GoVal)) (rt : RawTick),
      RawTickFromMap now m = some rt → 0 < rt.price ∧ rt.price < 1000000) ∧
    (∀ q : ℚ, q ≤ 0 → SanitizePrice q = 1 / 100) ∧
    (∀ q : ℚ, 1000000 < q → SanitizePrice q = 1000000) ∧
    (∀ q : ℚ, 0 < q → q ≤ 1000000 → SanitizePrice q = q) := by
  refine ⟨?_, ?_, ?_, ?_⟩
  · intro now m rt h
    have hval := (rawTickFromMap_some now m rt h).2.2.2.2.2
    simp only [rawTickValid, decide_eq_true_eq] at hval
    exact hval.2.2.2.2.2.1
  · intro q hq
    simp [SanitizePrice, hq]
  · intro q hq
    rw [SanitizePrice, if_neg (by linarith), if_pos hq]
  · intro q hq0 hq1
    rw [SanitizePrice, if_neg (by linarith), if_neg (by linarith)]

/-- C7, witness: the amended bounds at a concrete accepted tick, and the
clamp equations at concrete prices. -/
theorem rawTick_price_policy_witness :
    ((0 : ℚ) < mkRat 2 5 ∧ (mkRat 2 5 : ℚ) < 1000000) ∧
    SanitizePrice (-3) = 1 / 100 ∧
    SanitizePrice 2000000 = 1000000 ∧
    SanitizePrice 7 = 7 := by
  have h := rawTick_price_policy
  refine ⟨?_, h.2.1 (-3) (by norm_num), h.2.2.1 2000000 (by norm_num),
    h.2.2.2 7 (by norm_num) (by norm_num)⟩
  exact h.1 1752148800000
    [("source", .vStr "A"), ("symbol", .vStr "BTCUSD"),
     ("price", .vFloat (mkRat 2 5)), ("timestamp", .vStr "1752148800000")]
    ⟨"A", "BTCUSD", mkRat 2 5, 1752148800000000000⟩ (by decide)

/-! ## C8: timestamp sanitization -/

/-- C8, counterexample.  The claim says no `RawTick` accepted by the parser
carries a timestamp older than 24 hours.  An RFC3339 timestamp is stored
as parsed, bypassing `SanitizeTimestamp` entirely: with `now` at
2025-07-10T12:00:00Z, the input timestamp `2020-01-01T00:00:00Z` is
accepted unchanged, more than five years in the past. -/
theorem rawTick_stale_rfc3339_accepted :
    RawTickFromMap 1752148800000
      [("source", .vStr "A"), ("symbol", .vStr "BTCUSD"),
       ("price", .vFloat 1), ("timestamp", .vStr "2020-01-01T00:00:00Z")] =
      some ⟨"A", "BTCUSD", 1, 1577836800000000000⟩ ∧
    unixMilli 1577836800000000000 < 1752148800000 - 86400000 := by
  constructor
  · decide
  · decide

/-- C8, amended: `SanitizeTimestamp` does clamp into `[now − 24h, now]`
(future values and values older than 24 hours both become `now`), but it is
applied only on the millisecond-string path of `RawTickFromMap`; an
RFC3339Nano timestamp string is stored exactly as parsed, with no range
sanitization, so accepted `RawTick`s can carry future or stale timestamps
through that shape. -/
theorem rawTick_timestamp_sanitize :
    (∀ now ms : ℤ, now - 86400000 ≤ SanitizeTimestamp now ms ∧
      SanitizeTimestamp now ms ≤ now) ∧
    (∀ now ms : ℤ, now < ms → SanitizeTimestamp now ms = now) ∧
    (∀ now ms : ℤ, ms < now - 86400000 → SanitizeTimestamp now ms = now) ∧
    (∀ (now : ℤ) (m : List (String × GoVal)) (rt : RawTick) (t : String) (ms : ℤ),
      lookupVal m "timestamp" = some (.vStr t) →
      parseRFC3339 t = none →
      parseInt64 t = some ms →
      RawTickFromMap now m = some rt →
      rt.timestampNs = SanitizeTimestamp now ms * 1000000) := by
  refine ⟨?_, ?_, ?_, ?_⟩
  · intro now ms
    unfold SanitizeTimestamp
    split_ifs <;> omega
  · intro now ms h
    unfold SanitizeTimestamp
    rw [if_pos h]
  · intro now ms h
    unfold SanitizeTimestamp
    rw [if_neg (by omega), if_pos h]
  · intro now m rt t ms hlook hrfc hint hsome
    have hts := (rawTickFromMap_some now m rt hsome).2.2.2.2.1
    unfold parseTimestampField at hts
    simp only [hlook, hrfc, hint] at hts
    exact (Option.some.inj hts.symm)

/-- C8, witness: the clamp bounds at a concrete pair and the ms-string
path at a concrete accepted map. -/
theorem rawTick_timestamp_sanitize_witness :
    SanitizeTimestamp 1000 2000 = 1000 ∧
    (⟨"A", "BTCUSD", 1, 1752148800000000000⟩ : RawTick).timestampNs =
      SanitizeTimestamp 1752148800000 1752148800000 * 1000000 := by
  refine ⟨rawTick_timestamp_sanitize.2.1 1000 2000 (by norm_num), ?_⟩
  exact rawTick_timestamp_sanitize.2.2.2 1752148800000
    [("source", .vStr "A"), ("symbol", .vStr "BTCUSD"),
     ("price", .vFloat 1), ("timestamp", .vStr "1752148800000")]
    ⟨"A", "BTCUSD", 1, 1752148800000000000⟩ "1752148800000" 1752148800000
    (by decide) (by decide) (by decide) (by decide)

/-! ## C10: the accepted timestamp input shapes -/

/-- C10, counterexample.  The claim says the timestamp field is accepted in
three shapes, including a float64 number of milliseconds.  A well-formed
map whose timestamp is the float64 1752148800000 is rejected outright —
the schema validation requires `timestamp` to be a string — even though
`parseTimestampField` (modelling the Go switch) would happily consume it:
the float64 branch of the switch is dead code. -/
theorem rawTick_float_timestamp_rejected :
    RawTickFromMap 1752148800000
      [("source", .vStr "A"), ("symbol", .vStr "BTCUSD"),
       ("price", .vFloat 1), ("timestamp", .vFloat 1752148800000)] = none ∧
    (parseTimestampField 1752148800000
      [("source", .vStr "A"), ("symbol", .vStr "BTCUSD"),
       ("price", .vFloat 1), ("timestamp", .vFloat 1752148800000)]).isSome = true := by
  constructor
  · decide
  · decide

/-- C10, amended: `RawTickFromMap` accepts the timestamp in exactly two
shapes, both strings — an RFC3339Nano string, stored as parsed without
range sanitization, and a decimal string of milliseconds since epoch,
which is sanitized by `SanitizeTimestamp` before being stored; a float64
timestamp is rejected by the schema validation (the float64 branch of the
parsing switch is unreachable). -/
theorem rawTick_timestamp_shapes :
    (∀ (now : ℤ) (m : List (String × GoVal)) (rt : RawTick) (t : String) (ns : ℤ),
      lookupVal m "timestamp" = some (.vStr t) →
      parseRFC3339 t = some ns →
      RawTickFromMap now m = some rt →
      rt.timestampNs = ns) ∧
    (∀ (now : ℤ) (m : List (String × GoVal)) (rt : RawTick) (t : String) (ms : ℤ),
      lookupVal m "timestamp" = some (.vStr t) →
      parseRFC3339 t = none →
      parseInt64 t = some ms →
      RawTickFromMap now m = some rt →
      rt.timestampNs = SanitizeTimestamp now ms * 1000000) ∧
    (∀ (now : ℤ) (m : List (String × GoVal)) (x : ℚ),
      lookupVal m "timestamp" = some (.vFloat x) →
      RawTickFromMap now m = none) := by
  refine ⟨?_, ?_, ?_⟩
  · intro now m rt t ns hlook hrfc hsome
    have hts := (rawTickFromMap_some now m rt hsome).2.2.2.2.1
    unfold parseTimestampField at hts
    simp only [hlook, hrfc] at hts
    exact (Option.some.inj hts.symm)
  · intro now m rt t ms hlook hrfc hint hsome
    have hts := (rawTickFromMap_some now m rt hsome).2.2.2.2.1
    unfold parseTimestampField at hts
    simp only [hlook, hrfc, hint] at hts
    exact (Option.some.inj hts.symm)
  · intro now m x hlook
    have hvm : ValidateMap m rawTickSchema = false := by
      unfold ValidateMap rawTickSchema
      simp only [List.all_cons, List.all_nil]
      rw [hlook]
      simp [validateFieldType]
    unfold RawTickFromMap
    rw [hvm]
    simp

/-- C10, witness: the two accepted string shapes at concrete maps (RFC3339
stored as parsed; ms-string sanitized). -/
theorem rawTick_timestamp_shapes_witness :
    (⟨"A", "BTCUSD", 1, 1577836800000000000⟩ : RawTick).timestampNs =
      1577836800000000000 ∧
    (⟨"A", "BTCUSD", 1, 1752148800000000000⟩ : RawTick).timestampNs =
      SanitizeTimestamp 1752148800000 1752148800000 * 1000000 := by
  constructor
  · exact rawTick_timestamp_shapes.1 1752148800000
      [("source", .vStr "A"), ("symbol", .vStr "BTCUSD"),
       ("price", .vFloat 1), ("timestamp", .vStr "2020-01-01T00:00:00Z")]
      ⟨"A", "BTCUSD", 1, 1577836800000000000⟩ "2020-01-01T00:00:00Z"
      1577836800000000000 (by decide) (by decide) (by decide)
  · exact rawTick_timestamp_shapes.2.1 1752148800000
      [("source", .vStr "A"), ("symbol", .vStr "BTCUSD"),
       ("price", .vFloat 1), ("timestamp", .vStr "1752148800000")]
      ⟨"A", "BTCUSD", 1, 1752148800000000000⟩ "1752148800000" 1752148800000
      (by decide) (by decide) (by decide) (by decide)
